import Mathlib

/-!
Verification of the matching and tiering engine of the
girls-empowerment-mne-decision-tool repository, together with its CSV
ingestion script.

The definitions below are a shallow embedding of the JavaScript source:

* the function isSemanticMismatch and the groupMethodsByFit snippets of
  SEMANTIC_FILTERING_RECOMMENDATIONS.md (Option 1 and the Phase 2 inline
  check);
* the csv-to-json.js ingestion script (category derivation, header
  parsing, attribute accumulation and link normalization).

JavaScript strings are modelled as Lean String values; the handful of
string operations the source uses (trim, toLowerCase, startsWith,
includes) are re-implemented on the underlying character list so that
every definition evaluates by kernel reduction.  User selections and
method attribute maps are association lists / lookup functions, where a
missing key models an absent JavaScript object property and Option
distinguishes absent from present-but-empty (JavaScript truthiness of an
empty array differs from undefined).  Match percentages are rational
numbers on the 0..100 scale the source compares against.
-/

/-! ### JavaScript string primitives -/

/-- Model of the JavaScript String.prototype.trim: drop whitespace from
both ends of the character list. -/
def jsTrim (s : String) : String :=
  String.mk (((s.data.dropWhile Char.isWhitespace).reverse.dropWhile
    Char.isWhitespace).reverse)

/-- Model of JavaScript String.prototype.toLowerCase (ASCII case folding,
which is all the source data uses). -/
def jsToLower (s : String) : String :=
  String.mk (s.data.map Char.toLower)

/-- Model of JavaScript String.prototype.startsWith. -/
def jsStartsWith (s p : String) : Bool :=
  p.data.isPrefixOf s.data

/-- Model of JavaScript String.prototype.includes for a single character
(the source only tests for a dot and for a space). -/
def jsIncludes (s : String) (c : Char) : Bool :=
  s.data.contains c

/-! ### Data model of the engine

A method record as consumed by isSemanticMismatch: its attributes object
maps a category id to the array of supported values; none models an
absent property.  A user selection is the state.userSelections object: an
association list from category id to the array of chosen values. -/

structure Method where
  name : String
  attributes : String → Option (List String)

abbrev UserSelections := List (String × List String)

/-- Property read on the userSelections object: the value stored under a
key, or none when the property is absent. -/
def selGet (sel : UserSelections) (key : String) : Option (List String) :=
  (sel.find? (fun p => p.1 == key)).map Prod.snd

/-! ### Semantic validator (isSemanticMismatch, Option 1 of the source) -/

/-- Rule 1 of isSemanticMismatch: SEM level hard block.  The source guard
is the JavaScript truthiness of userSelections.sem_level, so the rule body
runs whenever the property is present, an empty array included. -/
def rule1 (method : Method) (userSelections : UserSelections) : Bool :=
  match selGet userSelections "sem_level" with
  | none => false
  | some userSemLevels =>
    let methodSemLevels := (method.attributes "sem_level").getD []
    let hasOverlap := userSemLevels.any (fun level => methodSemLevels.contains level)
    !hasOverlap && decide (0 < methodSemLevels.length)

/-- The fixed requires-reliable-technology allow-list of rule 2. -/
def digitalMethods : List String :=
  ["Quantitative Surveys (Digital/Online)",
   "Digital Diaries/Journals",
   "Participatory Video/Digital Storytelling",
   "Real-Time Polling (U-Report)",
   "Social Listening/Digital Traces"]

/-- Rule 2 of isSemanticMismatch: digital methods require at least Medium
technology access; fires when the selection for the technology category
is exactly the one-element array containing Low. -/
def rule2 (method : Method) (userSelections : UserSelections) : Bool :=
  if digitalMethods.contains method.name then
    let userTech :=
      (selGet userSelections "participants_access_to_technology_eg_phones_internet").getD []
    userTech.contains "Low" && decide (userTech.length = 1)
  else false

/-- The fixed visual/identity-exposing allow-list of rule 3. -/
def visibilityMethods : List String :=
  ["Photovoice", "Participatory Video/Digital Storytelling"]

/-- Rule 3 of isSemanticMismatch: visibility methods cannot work under
High cultural restrictiveness; fires when the selection for the cultural
category is exactly the one-element array containing High. -/
def rule3 (method : Method) (userSelections : UserSelections) : Bool :=
  if visibilityMethods.contains method.name then
    let userCultural :=
      (selGet userSelections "level_of_cultural_restrictiveness").getD []
    userCultural.contains "High" && decide (userCultural.length = 1)
  else false

/-- isSemanticMismatch: the three rules in source order, each returning
true early; equivalently their Boolean disjunction. -/
def isSemanticMismatch (method : Method) (userSelections : UserSelections) : Bool :=
  rule1 method userSelections || rule2 method userSelections ||
    rule3 method userSelections

/-! ### Phase 2 inline SEM check of groupMethodsByFit -/

/-- Modelled from the spec: userFilterSelections is not defined inside the
source snippet; per the glossary of the spec a filtered category is one
with a non-empty selection, so this is the list of category ids whose
selection array is non-empty. -/
def filteredCats (sel : UserSelections) : List String :=
  (sel.filter (fun p => !p.2.isEmpty)).map Prod.fst

/-- The inline Phase 2 SEM-level check of groupMethodsByFit: true when the
method must be skipped.  Unlike rule1, the body only fires when the user
selected at least one level. -/
def phase2Skip (method : Method) (sel : UserSelections) : Bool :=
  if (filteredCats sel).contains "sem_level" then
    let methodSemLevels := (method.attributes "sem_level").getD []
    let userSemLevels := (selGet sel "sem_level").getD []
    if decide (0 < userSemLevels.length) && decide (0 < methodSemLevels.length) then
      !(userSemLevels.any (fun level => methodSemLevels.contains level))
    else false
  else false

/-! ### Match scorer and tier classifier -/

/-- Modelled from the spec: the Match Scorer of section 4.1 (its app.js
implementation is not part of the sources).  A filtered category matches
when the method declares no constraint for it or the declared values
overlap the selected ones. -/
def categoryMatches (method : Method) (sel : UserSelections) (c : String) : Bool :=
  match method.attributes c with
  | none => true
  | some vs => ((selGet sel c).getD []).any (fun v => vs.contains v)

/-- Modelled from the spec: match percentage on the 0..100 scale the
source snippet compares against; 100 when no category is filtered. -/
def matchPercentage (method : Method) (sel : UserSelections) : ℚ :=
  let filtered := filteredCats sel
  if filtered.length = 0 then 100
  else (((filtered.filter (fun c => categoryMatches method sel c)).length : ℚ) * 100) /
    (filtered.length : ℚ)

inductive Tier where
  | bestFit
  | goodAlternatives
  | stretchOptions
deriving DecidableEq, Repr

/-- The percentage thresholds of the groupMethodsByFit snippet: exactly
100 is best fit, at least 80 a good alternative; the remaining branches
are elided in the source. Modelled from the spec: above zero is a stretch
option and zero is listed nowhere. -/
def tierOf (p : ℚ) : Option Tier :=
  if p = 100 then some Tier.bestFit
  else if 80 ≤ p then some Tier.goodAlternatives
  else if 0 < p then some Tier.stretchOptions
  else none

/-- Per-method step of groupMethodsByFit: a semantic mismatch skips the
method entirely (the source comment reads: skip this method entirely,
do not add to any tier); only a semantically valid method is bucketed by
its percentage. -/
def classifyMethod (method : Method) (sel : UserSelections) : Option Tier :=
  if isSemanticMismatch method sel then none
  else tierOf (matchPercentage method sel)

/-- Modelled from the spec: the four-tier output record of section 4.3.
The source snippet pushes into bestFit and goodAlternatives and skips a
mismatched method before any push, so nothing ever reaches excluded. -/
structure Groups where
  bestFit : List String
  goodAlternatives : List String
  stretchOptions : List String
  excluded : List String
deriving DecidableEq, Repr

def emptyGroups : Groups :=
  { bestFit := [], goodAlternatives := [], stretchOptions := [], excluded := [] }

def pushTier (g : Groups) (method : Method) (sel : UserSelections) : Groups :=
  match classifyMethod method sel with
  | none => g
  | some Tier.bestFit => { g with bestFit := g.bestFit ++ [method.name] }
  | some Tier.goodAlternatives =>
      { g with goodAlternatives := g.goodAlternatives ++ [method.name] }
  | some Tier.stretchOptions =>
      { g with stretchOptions := g.stretchOptions ++ [method.name] }

def groupMethodsByFit (methods : List Method) (sel : UserSelections) : Groups :=
  methods.foldl (fun g m => pushTier g m sel) emptyGroups

/-! ### Concrete fixtures used by witnesses and counterexamples -/

def adminData : Method :=
  ⟨"Administrative Data",
    fun c => if c = "sem_level" then some ["Institutional"] else none⟩

def oneOnOne : Method :=
  ⟨"One-on-One Interviews",
    fun c => if c = "sem_level" then some ["Individual"] else none⟩

def photoVoice : Method :=
  ⟨"Photovoice",
    fun c => if c = "level_of_cultural_restrictiveness" then some ["High"] else none⟩

def participatoryVideo : Method :=
  ⟨"Participatory Video/Digital Storytelling", fun _ => none⟩

def selIndividual : UserSelections := [("sem_level", ["Individual"])]

def selHighCultural : UserSelections :=
  [("level_of_cultural_restrictiveness", ["High"])]

def selSemEmpty : UserSelections := [("sem_level", ([] : List String))]

def selLowOnly : UserSelections :=
  [("participants_access_to_technology_eg_phones_internet", ["Low"])]

def selLowMedium : UserSelections :=
  [("participants_access_to_technology_eg_phones_internet", ["Low", "Medium"])]

/-! ### CSV ingestion (csv-to-json.js) -/

/-- Safe category id of csv-to-json.js: lowercase the name, replace every
whitespace run by one underscore, drop every character outside lowercase
letters, digits and underscore. -/
def allowedIdChar (c : Char) : Bool :=
  (decide ('a' ≤ c) && decide (c ≤ 'z')) ||
    (decide ('0' ≤ c) && decide (c ≤ '9')) || decide (c = '_')

/-- Replace each maximal whitespace run by a single underscore; the flag
records whether the previous character was whitespace. -/
def collapseWsAux : Bool → List Char → List Char
  | _, [] => []
  | prevWs, c :: cs =>
    if c.isWhitespace then
      if prevWs then collapseWsAux true cs else '_' :: collapseWsAux true cs
    else c :: collapseWsAux false cs

def collapseWs (cs : List Char) : List Char :=
  collapseWsAux false cs

def deriveId (categoryName : String) : String :=
  String.mk ((collapseWs (jsToLower categoryName).data).filter allowedIdChar)

/-- Search for the separator of the header regex.  The accumulator holds
the reversed first capture group so far; at each position the regex
succeeds when skipping whitespace reaches a dash followed by at least one
further character (the lazy first group takes the earliest such split,
and the greedy tail takes everything after the dash). -/
def headerSplitAux : List Char → List Char → Option (List Char × List Char)
  | _, [] => none
  | acc, c :: cs =>
    match (c :: cs).dropWhile Char.isWhitespace with
    | '-' :: rest =>
        if rest.isEmpty then headerSplitAux (c :: acc) cs
        else some (acc.reverse, rest)
    | _ => headerSplitAux (c :: acc) cs

/-- Match of the header against the Category - Option regex of the
source.  Both call sites immediately trim both capture groups, so the
trimmed groups are returned (the whitespace the separator pattern absorbs
before the second group is invisible under the trim). -/
def parseHeader (header : String) : Option (String × String) :=
  match header.data with
  | [] => none
  | c :: cs =>
    match headerSplitAux [c] cs with
    | none => none
    | some (g1, g2) => some (jsTrim (String.mk g1), jsTrim (String.mk g2))

structure Category where
  id : String
  name : String
  options : List String
deriving DecidableEq, Repr

/-- The special columns skipped by the header loop. -/
def specialCols : List String := ["link", "url", "reference"]

/-- One step of the header loop of csv-to-json.js: skip special columns,
parse the Category - Option header, create the category on first sight
(with the option) and append the option to an existing category only when
it is not present yet. -/
def addHeader (cats : List Category) (header : String) : List Category :=
  if specialCols.contains (jsTrim (jsToLower header)) then cats
  else
    match parseHeader header with
    | none => cats
    | some (categoryName, optionName) =>
      let categoryId := deriveId categoryName
      match cats.find? (fun c => c.id == categoryId) with
      | none => cats ++ [{ id := categoryId, name := categoryName, options := [optionName] }]
      | some c0 =>
        if c0.options.contains optionName then cats
        else cats.map (fun c =>
          if c.id == categoryId then { c with options := c.options ++ [optionName] } else c)

/-- The categories list built from the header row; the loop starts at
column one, the first column being the method name. -/
def buildCategories (headers : List String) : List Category :=
  (headers.drop 1).foldl addHeader []

/-- Link normalization of csv-to-json.js: reject empty and the literal
null placeholder, keep http and https URLs as written, add the https
scheme to a bare www. value and to a bare-domain value (a dot and no
space); anything else yields no link. -/
def normalizeLink (value : String) : Option String :=
  if value ≠ "" ∧ value ≠ "null" ∧ jsTrim value ≠ "" then
    if jsStartsWith value "http://" || jsStartsWith value "https://" ||
        jsStartsWith value "www." then
      if jsStartsWith value "www." then some ("https://" ++ value) else some value
    else if jsIncludes value '.' && !jsIncludes value ' ' then
      some ("https://" ++ value)
    else none
  else none

structure CsvMethod where
  name : String
  description : String
  attributes : List (String × List String)
  link : Option String
  link2 : Option String
  costTier : Option String
  connectivity : Option String
  type : Option String
deriving DecidableEq, Repr

/-- Lookup of method.attributes at a category id, the empty array when
the key is absent. -/
def attrGet (attrs : List (String × List String)) (categoryId : String) : List String :=
  ((attrs.find? (fun p => p.1 == categoryId)).map Prod.snd).getD []

/-- Initialize the array for a category when it does not exist yet. -/
def ensureAttr (attrs : List (String × List String)) (categoryId : String) :
    List (String × List String) :=
  match attrs.find? (fun p => p.1 == categoryId) with
  | none => attrs ++ [(categoryId, [])]
  | some _ => attrs

/-- Append the option name to the array stored under the category id. -/
def pushAttr (attrs : List (String × List String)) (categoryId optionName : String) :
    List (String × List String) :=
  attrs.map (fun p => if p.1 == categoryId then (p.1, p.2 ++ [optionName]) else p)

/-- The boolean cell representations accepted by the row loop. -/
def truthyValues : List String :=
  ["true", "yes", "1", "x", "TRUE", "YES", "X", "True", "Yes"]

/-- One cell of the row loop of csv-to-json.js: trimmed empty cells are
skipped, the special columns fill the scalar fields, and a truthy value
under a Category - Option header records the option for the category,
without duplicating an option already present. -/
def processCell (m : CsvMethod) (header rawValue : String) : CsvMethod :=
  let value := jsTrim rawValue
  if value = "" then m
  else
    let headerLower := jsTrim (jsToLower header)
    if headerLower = "link" ∨ headerLower = "url" ∨ headerLower = "reference" then
      match normalizeLink value with
      | some l => { m with link := some l }
      | none => m
    else if headerLower = "link2" then
      match normalizeLink value with
      | some l => { m with link2 := some l }
      | none => m
    else if headerLower = "cost tier" then
      if value ≠ "null" then { m with costTier := some value } else m
    else if headerLower = "connectivity" then
      if value ≠ "null" then { m with connectivity := some value } else m
    else if headerLower = "type" then
      if value ≠ "null" then { m with type := some value } else m
    else if headerLower = "description" then
      if value ≠ "null" ∧ jsTrim value ≠ "" then { m with description := value } else m
    else
      match parseHeader header with
      | none => m
      | some (categoryName, optionName) =>
        let categoryId := deriveId categoryName
        let attrs1 := ensureAttr m.attributes categoryId
        if truthyValues.contains value then
          if (attrGet attrs1 categoryId).contains optionName then
            { m with attributes := attrs1 }
          else
            { m with attributes := pushAttr attrs1 categoryId optionName }
        else { m with attributes := attrs1 }

def initMethod (methodName : String) : CsvMethod :=
  { name := methodName, description := "", attributes := [], link := none,
    link2 := none, costTier := none, connectivity := none, type := none }

def defaultDescription (methodName : String) : String :=
  methodName ++ " methodology for adolescent girl empowerment research"

/-- Default description fallback at the end of the row loop. -/
def finalizeMethod (m : CsvMethod) : CsvMethod :=
  if m.description = "" ∨ jsTrim m.description = "" then
    { m with description := defaultDescription m.name }
  else m

/-- One data row of csv-to-json.js: the first cell is the method name
(a row with a blank name is skipped), the remaining cells are processed
against the headers of the same index, and the description is defaulted
when absent. -/
def processRow (headers values : List String) : Option CsvMethod :=
  let methodName := jsTrim (values.headD "")
  if methodName = "" then none
  else some (finalizeMethod (((headers.zip values).drop 1).foldl
    (fun m hv => processCell m hv.1 hv.2) (initMethod methodName)))

/-! ### Helper lemmas about the engine -/

theorem pushTier_excluded (g : Groups) (m : Method) (sel : UserSelections) :
    (pushTier g m sel).excluded = g.excluded := by
  unfold pushTier
  cases classifyMethod m sel with
  | none => rfl
  | some t => cases t <;> rfl

theorem foldl_pushTier_excluded (ms : List Method) (sel : UserSelections) :
    ∀ g : Groups, (ms.foldl (fun g m => pushTier g m sel) g).excluded = g.excluded := by
  induction ms with
  | nil => intro g; rfl
  | cons m ms ih => intro g; rw [List.foldl_cons, ih, pushTier_excluded]

theorem groupMethodsByFit_excluded (methods : List Method) (sel : UserSelections) :
    (groupMethodsByFit methods sel).excluded = [] := by
  unfold groupMethodsByFit
  rw [foldl_pushTier_excluded]
  rfl

theorem matchPercentage_all (m : Method) (sel : UserSelections)
    (h : (filteredCats sel).filter (fun c => categoryMatches m sel c) = filteredCats sel) :
    matchPercentage m sel = 100 := by
  by_cases h0 : (filteredCats sel).length = 0
  · simp [matchPercentage, h0]
  · have hne : ((filteredCats sel).length : ℚ) ≠ 0 := by exact_mod_cast h0
    simp only [matchPercentage, h, if_neg h0]
    rw [mul_comm, mul_div_assoc, div_self hne, mul_one]

theorem selGet_none_not_filtered (sel : UserSelections) (key : String)
    (h : selGet sel key = none) : (filteredCats sel).contains key = false := by
  have hf : sel.find? (fun p => p.1 == key) = none := by
    unfold selGet at h
    cases hx : sel.find? (fun p => p.1 == key) with
    | none => rfl
    | some p => rw [hx] at h; simp at h
  rw [List.find?_eq_none] at hf
  by_contra hc
  have hmem : key ∈ filteredCats sel := by
    have := Bool.of_not_eq_false hc
    simpa [List.contains] using this
  unfold filteredCats at hmem
  rcases List.mem_map.1 hmem with ⟨p, hp, hpk⟩
  have hpsel : p ∈ sel := (List.mem_filter.1 hp).1
  exact (hf p hpsel) (by simp [hpk])

theorem selGet_some_filtered (sel : UserSelections) (key : String) (us : List String)
    (h : selGet sel key = some us) (hne : us ≠ []) :
    (filteredCats sel).contains key = true := by
  unfold selGet at h
  cases hx : sel.find? (fun p => p.1 == key) with
  | none => rw [hx] at h; simp at h
  | some p =>
    rw [hx] at h
    have hp2 : p.2 = us := by simpa using h
    have hpk : (p.1 == key) = true := by simpa using List.find?_some hx
    have hpsel : p ∈ sel := List.mem_of_find?_eq_some hx
    have hmem : key ∈ filteredCats sel := by
      unfold filteredCats
      refine List.mem_map.2 ⟨p, List.mem_filter.2 ⟨hpsel, ?_⟩, by simpa using hpk⟩
      simp [hp2, hne]
    simpa [List.contains] using hmem

/-! ### Claim theorems: the semantic validator -/

/-- C1: for every method and selection, when the method declares at least
one sem_level value, the selection contains the sem_level category, and
the declared values and the selected values have empty intersection, the
semantic validator declares the pair invalid; and a method with no
declared sem_level value is never excluded by the level rule. -/
theorem sem_level_zero_overlap_excludes :
    (∀ (m : Method) (sel : UserSelections) (us : List String),
      selGet sel "sem_level" = some us →
      0 < ((m.attributes "sem_level").getD []).length →
      (∀ v ∈ us, v ∉ (m.attributes "sem_level").getD []) →
      isSemanticMismatch m sel = true) ∧
    (∀ (m : Method) (sel : UserSelections),
      (m.attributes "sem_level").getD [] = [] → rule1 m sel = false) := by
  constructor
  · intro m sel us h1 h2 h3
    have hr : rule1 m sel = true := by
      simp only [rule1, h1, Bool.and_eq_true, Bool.not_eq_true', decide_eq_true_eq]
      refine ⟨?_, h2⟩
      rw [List.any_eq_false]
      intro v hv
      simpa [List.contains] using h3 v hv
    simp [isSemanticMismatch, hr]
  · intro m sel h
    cases hs : selGet sel "sem_level" with
    | none => simp [rule1, hs]
    | some us => simp [rule1, hs, h]

/-- C1 witness: Administrative Data (Institutional only) is flagged for a
selection of only Individual, and a method with no level is not flagged
by the level rule. -/
theorem sem_level_zero_overlap_excludes_witness :
    isSemanticMismatch adminData selIndividual = true :=
  sem_level_zero_overlap_excludes.1 adminData selIndividual ["Individual"]
    (by decide) (by decide) (by decide)

/-- C2 counterexample: Photovoice with a High-only cultural selection is a
semantic mismatch with a raw match percentage of 100, yet the output of
groupMethodsByFit does not place it in the excluded bucket (the bucket
stays empty; the source skips the method before any push). -/
theorem mismatch_skipped_not_placed_in_excluded :
    isSemanticMismatch photoVoice selHighCultural = true ∧
    matchPercentage photoVoice selHighCultural = 100 ∧
    (groupMethodsByFit [photoVoice] selHighCultural).excluded = [] :=
  ⟨by decide, matchPercentage_all photoVoice selHighCultural (by decide), by decide⟩

/-- C2 amended: a method for which a semantic rule fires is skipped
entirely by the tier classification: it lands in no tier at all, and the
excluded bucket of the output is always empty. -/
theorem mismatch_method_in_no_tier (m : Method) (sel : UserSelections)
    (methods : List Method) (h : isSemanticMismatch m sel = true) :
    classifyMethod m sel = none ∧ (groupMethodsByFit methods sel).excluded = [] :=
  ⟨by simp [classifyMethod, h], groupMethodsByFit_excluded methods sel⟩

/-- C2 amended witness at a concrete mismatching input. -/
theorem mismatch_method_in_no_tier_witness :
    classifyMethod photoVoice selHighCultural = none ∧
    (groupMethodsByFit [photoVoice] selHighCultural).excluded = [] :=
  mismatch_method_in_no_tier photoVoice selHighCultural [photoVoice] (by decide)

/-- C3: for a method on the digitalMethods allow-list, the technology
floor rule fires exactly when the selection stored for the technology
category is the one-element array containing Low; any other selection,
such as Low together with Medium, does not fire it. -/
theorem technology_floor_singleton_low (m : Method) (sel : UserSelections)
    (us : List String) (hm : digitalMethods.contains m.name = true)
    (hu : (selGet sel "participants_access_to_technology_eg_phones_internet").getD [] = us) :
    rule2 m sel = true ↔ us = ["Low"] := by
  simp only [rule2, hm, if_true, hu, Bool.and_eq_true]
  constructor
  · rintro ⟨hc, hl⟩
    rw [decide_eq_true_eq, List.length_eq_one] at hl
    rcases hl with ⟨a, rfl⟩
    have : a = "Low" := by
      have h := hc
      simp [List.contains] at h
      exact h.symm
    rw [this]
  · rintro rfl
    decide

/-- C3 witness: Participatory Video with the singleton Low selection is
excluded by the technology floor rule. -/
theorem technology_floor_singleton_low_witness :
    rule2 participatoryVideo selLowOnly = true :=
  (technology_floor_singleton_low participatoryVideo selLowOnly ["Low"]
    (by decide) (by decide)).2 rfl

/-- C4: the visibilityMethods allow-list contains Photovoice, and for a
method on it the cultural visibility rule fires exactly when the
selection stored for the cultural restrictiveness category is the
one-element array containing High. -/
theorem cultural_visibility_singleton_high (m : Method) (sel : UserSelections)
    (us : List String) (hm : visibilityMethods.contains m.name = true)
    (hu : (selGet sel "level_of_cultural_restrictiveness").getD [] = us) :
    visibilityMethods.contains "Photovoice" = true ∧
    (rule3 m sel = true ↔ us = ["High"]) := by
  refine ⟨by decide, ?_⟩
  simp only [rule3, hm, if_true, hu, Bool.and_eq_true]
  constructor
  · rintro ⟨hc, hl⟩
    rw [decide_eq_true_eq, List.length_eq_one] at hl
    rcases hl with ⟨a, rfl⟩
    have : a = "High" := by
      have h := hc
      simp [List.contains] at h
      exact h.symm
    rw [this]
  · rintro rfl
    decide

/-- C4 witness: Photovoice with the singleton High selection is excluded
by the cultural visibility rule. -/
theorem cultural_visibility_singleton_high_witness :
    rule3 photoVoice selHighCultural = true :=
  (cultural_visibility_singleton_high photoVoice selHighCultural ["High"]
    (by decide) (by decide)).2.2 rfl

/-- C5: for a semantically valid method the tier thresholds are: exactly
100 percent is best fit; at least 80 and below 100 is a good alternative
(closed lower bound); strictly between 0 and 80 is a stretch option. -/
theorem tier_bucket_boundaries (m : Method) (sel : UserSelections)
    (h : isSemanticMismatch m sel = false) :
    (matchPercentage m sel = 100 → classifyMethod m sel = some Tier.bestFit) ∧
    (80 ≤ matchPercentage m sel → matchPercentage m sel < 100 →
      classifyMethod m sel = some Tier.goodAlternatives) ∧
    (0 < matchPercentage m sel → matchPercentage m sel < 80 →
      classifyMethod m sel = some Tier.stretchOptions) := by
  have hcl : classifyMethod m sel = tierOf (matchPercentage m sel) := by
    simp [classifyMethod, h]
  rw [hcl]
  unfold tierOf
  refine ⟨?_, ?_, ?_⟩
  · intro h100
    rw [if_pos h100]
  · intro h80 hlt
    rw [if_neg (ne_of_lt hlt), if_pos h80]
  · intro h0 hlt
    have hn100 : matchPercentage m sel ≠ 100 := by
      intro hq
      rw [hq] at hlt
      norm_num at hlt
    rw [if_neg hn100, if_neg (not_le.2 hlt), if_pos h0]

/-- C5 witness: a full match lands in best fit. -/
theorem tier_bucket_boundaries_witness :
    classifyMethod oneOnOne selIndividual = some Tier.bestFit :=
  (tier_bucket_boundaries oneOnOne selIndividual (by decide)).1
    (matchPercentage_all oneOnOne selIndividual (by decide))

/-- C6 counterexample: a selection that contains sem_level mapped to the
empty array is treated by the level rule as a live filter: rule1 fires
for Administrative Data, although the claim says the rule must not
exclude any method then. -/
theorem level_rule_fires_on_empty_selection :
    selGet selSemEmpty "sem_level" = some [] ∧ rule1 adminData selSemEmpty = true := by
  decide

/-- C6 amended: rule evaluation is total by construction, and the level
rule does not apply when the selection lacks the sem_level key; but when
the key maps to the empty array the rule excludes exactly the methods
declaring at least one level value. -/
theorem level_rule_absent_and_empty (m : Method) (sel : UserSelections) :
    (selGet sel "sem_level" = none → rule1 m sel = false) ∧
    (selGet sel "sem_level" = some [] →
      rule1 m sel = !((m.attributes "sem_level").getD []).isEmpty) := by
  constructor
  · intro h
    simp [rule1, h]
  · intro h
    cases hml : (m.attributes "sem_level").getD [] with
    | nil => simp [rule1, h, hml]
    | cons a l => simp [rule1, h, hml]

/-- C6 amended witness: a selection without the sem_level key never
triggers the level rule. -/
theorem level_rule_absent_and_empty_witness :
    rule1 adminData selLowOnly = false :=
  (level_rule_absent_and_empty adminData selLowOnly).1 (by decide)

/-- C7 counterexample: on a selection with sem_level present but empty
and a method declaring a level, the Option 1 check excludes while the
Phase 2 inline check does not. -/
theorem option1_phase2_disagree_on_empty :
    rule1 adminData selSemEmpty = true ∧ phase2Skip adminData selSemEmpty = false := by
  decide

/-- C7 amended: the two SEM-overlap checks make the same decision on
every pair whose selection does not map sem_level to the empty array. -/
theorem option1_phase2_agree_off_empty (m : Method) (sel : UserSelections)
    (h : selGet sel "sem_level" ≠ some []) :
    rule1 m sel = phase2Skip m sel := by
  cases hs : selGet sel "sem_level" with
  | none =>
    have hc := selGet_none_not_filtered sel "sem_level" hs
    simp [rule1, phase2Skip, hs, hc]
  | some us =>
    have hne : us ≠ [] := fun he => h (he ▸ hs)
    have hc := selGet_some_filtered sel "sem_level" us hs hne
    have hlen : decide (0 < us.length) = true := by
      cases us with
      | nil => exact absurd rfl hne
      | cons a l => simp
    simp only [rule1, phase2Skip, hs, hc, if_true, hlen, Option.getD_some, Bool.true_and]
    cases hml : decide (0 < ((m.attributes "sem_level").getD []).length) <;>
      simp [hml, Bool.and_comm]

/-- C7 amended witness at a non-empty sem_level selection. -/
theorem option1_phase2_agree_off_empty_witness :
    rule1 adminData selIndividual = phase2Skip adminData selIndividual :=
  option1_phase2_agree_off_empty adminData selIndividual (by decide)

/-! ### Claim theorems: link normalization -/

theorem jsStartsWith_first_char (v p : String) (c : Char) (rest : List Char)
    (hp : p.data = c :: rest) (h : jsStartsWith v p = true) :
    ∃ cs, v.data = c :: cs := by
  unfold jsStartsWith at h
  rw [hp] at h
  cases hv : v.data with
  | nil => rw [hv] at h; simp [List.isPrefixOf] at h
  | cons b bs =>
    rw [hv] at h
    simp only [List.isPrefixOf, Bool.and_eq_true, beq_iff_eq] at h
    refine ⟨bs, ?_⟩
    rw [h.1]

theorem startsWith_h_not_www (v : String) (cs : List Char) (hv : v.data = 'h' :: cs) :
    jsStartsWith v "www." = false := by
  unfold jsStartsWith
  rw [hv]
  have hw : "www.".data = 'w' :: "ww.".data := rfl
  rw [hw]
  simp [List.isPrefixOf]

/-- C8: link normalization keeps values with the http or https scheme
unchanged, adds the https scheme to values starting with www. and to
bare-domain values (a dot and no space), and treats an empty value or
the literal null placeholder as absent. -/
theorem link_normalization_cases (v : String) :
    (v ≠ "" → v ≠ "null" → jsTrim v ≠ "" →
      ((jsStartsWith v "http://" = true ∨ jsStartsWith v "https://" = true) →
        normalizeLink v = some v) ∧
      (jsStartsWith v "www." = true → normalizeLink v = some ("https://" ++ v)) ∧
      (jsStartsWith v "http://" = false → jsStartsWith v "https://" = false →
        jsStartsWith v "www." = false → jsIncludes v '.' = true →
        jsIncludes v ' ' = false → normalizeLink v = some ("https://" ++ v))) ∧
    ((v = "" ∨ v = "null") → normalizeLink v = none) := by
  constructor
  · intro h1 h2 h3
    refine ⟨?_, ?_, ?_⟩
    · intro hh
      have hw : jsStartsWith v "www." = false := by
        rcases hh with h | h
        · obtain ⟨cs, hv⟩ := jsStartsWith_first_char v "http://" 'h' "ttp://".data rfl h
          exact startsWith_h_not_www v cs hv
        · obtain ⟨cs, hv⟩ := jsStartsWith_first_char v "https://" 'h' "ttps://".data rfl h
          exact startsWith_h_not_www v cs hv
      rcases hh with h | h <;> simp [normalizeLink, h1, h2, h3, h, hw]
    · intro hw
      simp [normalizeLink, h1, h2, h3, hw]
    · intro ha hb hc hd he
      simp [normalizeLink, h1, h2, h3, ha, hb, hc, hd, he]
  · intro h
    rcases h with rfl | rfl <;> simp [normalizeLink]

/-- C8 witness: a bare www. value gets the https scheme. -/
theorem link_normalization_cases_witness :
    normalizeLink "www.example.com" = some ("https://" ++ "www.example.com") :=
  ((link_normalization_cases "www.example.com").1 (by decide) (by decide)
    (by decide)).2.1 (by decide)

/-! ### Claim theorems: ingestion invariants -/

/-- Well-formedness of the categories list: pairwise distinct ids and
duplicate-free option lists. -/
def catsWF (cats : List Category) : Prop :=
  ((cats.map Category.id).Nodup) ∧ ∀ c ∈ cats, c.options.Nodup

theorem mem_id_unique {cats : List Category} (hnd : (cats.map Category.id).Nodup)
    {c1 c2 : Category} (h1 : c1 ∈ cats) (h2 : c2 ∈ cats) (he : c1.id = c2.id) :
    c1 = c2 :=
  List.inj_on_of_nodup_map hnd h1 h2 he

theorem map_update_ids (cats : List Category) (categoryId optionName : String) :
    ((cats.map (fun c => if c.id == categoryId
        then { c with options := c.options ++ [optionName] } else c)).map Category.id) =
      cats.map Category.id := by
  induction cats with
  | nil => rfl
  | cons c cs ih =>
    simp only [List.map_cons, ih]
    congr 1
    split <;> rfl

theorem addHeader_wf (cats : List Category) (header : String) (h : catsWF cats) :
    catsWF (addHeader cats header) := by
  simp only [addHeader]
  split
  · exact h
  · split
    · exact h
    · rename_i categoryName optionName heq
      split
      · rename_i hf
        rw [List.find?_eq_none] at hf
        constructor
        · rw [List.map_append, List.nodup_append]
          refine ⟨h.1, by simp, ?_⟩
          intro a ha hb
          simp at hb
          subst hb
          rcases List.mem_map.1 ha with ⟨c, hc, hca⟩
          exact hf c hc (by simp [hca])
        · intro c hc
          rcases List.mem_append.1 hc with hc | hc
          · exact h.2 c hc
          · simp at hc
            subst hc
            simp
      · rename_i c0 hf
        have hc0mem : c0 ∈ cats := List.mem_of_find?_eq_some hf
        have hc0id : c0.id = deriveId categoryName := by
          simpa using List.find?_some hf
        split
        · exact h
        · rename_i hin
          constructor
          · rw [map_update_ids]
            exact h.1
          · intro c hc
            rcases List.mem_map.1 hc with ⟨c1, hc1, hcc⟩
            subst hcc
            by_cases hcid : (c1.id == deriveId categoryName) = true
            · rw [if_pos hcid]
              have hc1c0 : c1 = c0 :=
                mem_id_unique h.1 hc1 hc0mem (by rw [hc0id]; simpa using hcid)
              subst hc1c0
              have hnotin : optionName ∉ c1.options := by
                intro hmem
                exact hin (by simp [List.contains, hmem])
              rw [List.nodup_append]
              refine ⟨h.2 c1 hc1, by simp, ?_⟩
              intro a ha hb
              simp at hb
              subst hb
              exact hnotin ha
            · rw [if_neg hcid]
              exact h.2 c1 hc1

theorem foldl_addHeader_wf (hs : List String) (cats : List Category) (h : catsWF cats) :
    catsWF (hs.foldl addHeader cats) := by
  induction hs generalizing cats with
  | nil => exact h
  | cons a as ih => exact ih _ (addHeader_wf _ _ h)

/-- C9: in the catalog built from the header row, no two entries of the
categories list share an id; a header whose name derives an already
present id only updates that category. -/
theorem category_ids_nodup (headers : List String) :
    ((buildCategories headers).map Category.id).Nodup := by
  have hwf : catsWF (buildCategories headers) := by
    unfold buildCategories
    exact foldl_addHeader_wf _ _ ⟨by simp, by simp⟩
  exact hwf.1

/-- C9 witness: a header row that repeats a category id produces a
duplicate-free id list. -/
theorem category_ids_nodup_witness :
    ((buildCategories ["Method", "SEM Level - Individual", "Sem  LEVEL! - Community",
      "Resources - Low"]).map Category.id).Nodup :=
  category_ids_nodup ["Method", "SEM Level - Individual", "Sem  LEVEL! - Community",
    "Resources - Low"]

/-- Well-formedness of a method attributes object: pairwise distinct
category keys and duplicate-free value arrays. -/
def attrsWF (attrs : List (String × List String)) : Prop :=
  ((attrs.map Prod.fst).Nodup) ∧ ∀ p ∈ attrs, p.2.Nodup

theorem ensureAttr_wf (attrs : List (String × List String)) (categoryId : String)
    (h : attrsWF attrs) : attrsWF (ensureAttr attrs categoryId) := by
  unfold ensureAttr
  cases hf : attrs.find? (fun p => p.1 == categoryId) with
  | some p => exact h
  | none =>
    rw [List.find?_eq_none] at hf
    constructor
    · rw [List.map_append, List.nodup_append]
      refine ⟨h.1, by simp, ?_⟩
      intro a ha hb
      simp at hb
      subst hb
      rcases List.mem_map.1 ha with ⟨q, hq, hqa⟩
      exact hf q hq (by simp [hqa])
    · intro p hp
      rcases List.mem_append.1 hp with hp | hp
      · exact h.2 p hp
      · simp at hp
        subst hp
        simp

theorem pushAttr_keys (attrs : List (String × List String)) (categoryId optionName : String) :
    (pushAttr attrs categoryId optionName).map Prod.fst = attrs.map Prod.fst := by
  unfold pushAttr
  induction attrs with
  | nil => rfl
  | cons q qs ih =>
    simp only [List.map_cons, ih]
    congr 1
    split <;> rfl

theorem pushAttr_wf (attrs : List (String × List String)) (categoryId optionName : String)
    (h : attrsWF attrs)
    (hno : (attrGet attrs categoryId).contains optionName = false) :
    attrsWF (pushAttr attrs categoryId optionName) := by
  constructor
  · rw [pushAttr_keys]
    exact h.1
  · intro p hp
    unfold pushAttr at hp
    rcases List.mem_map.1 hp with ⟨q, hq, hqp⟩
    subst hqp
    by_cases hqc : (q.1 == categoryId) = true
    · rw [if_pos hqc]
      cases hf : attrs.find? (fun p => p.1 == categoryId) with
      | none =>
        rw [List.find?_eq_none] at hf
        exact absurd hqc (by simpa using hf q hq)
      | some q0 =>
        have hq0mem : q0 ∈ attrs := List.mem_of_find?_eq_some hf
        have hq0k : q0.1 = categoryId := by
          simpa using List.find?_some hf
        have hqq0 : q = q0 := by
          have hfst : q.1 = q0.1 := by
            rw [hq0k]
            simpa using hqc
          exact List.inj_on_of_nodup_map h.1 hq hq0mem hfst
        have hget : attrGet attrs categoryId = q0.2 := by
          unfold attrGet
          rw [hf]
          rfl
        have hnotin : optionName ∉ q.2 := by
          intro hmem
          rw [hqq0] at hmem
          rw [hget] at hno
          simp [List.contains, hmem] at hno
        rw [List.nodup_append]
        refine ⟨h.2 q hq, by simp, ?_⟩
        intro a ha hb
        simp at hb
        subst hb
        exact hnotin ha
    · rw [if_neg hqc]
      exact h.2 q hq

theorem processCell_wf (m : CsvMethod) (header rawValue : String)
    (h : attrsWF m.attributes) : attrsWF (processCell m header rawValue).attributes := by
  simp only [processCell]
  repeat' split
  all_goals try exact h
  all_goals try exact ensureAttr_wf m.attributes _ h
  rename_i hcon
  exact pushAttr_wf _ _ _ (ensureAttr_wf m.attributes _ h) (by simpa using hcon)

theorem foldl_processCell_wf (cells : List (String × String)) (m : CsvMethod)
    (h : attrsWF m.attributes) :
    attrsWF ((cells.foldl (fun m hv => processCell m hv.1 hv.2) m).attributes) := by
  induction cells generalizing m with
  | nil => exact h
  | cons c cs ih => exact ih _ (processCell_wf _ _ _ h)

theorem finalizeMethod_attributes (m : CsvMethod) :
    (finalizeMethod m).attributes = m.attributes := by
  unfold finalizeMethod
  split <;> rfl

/-- C10: every attribute array of a method produced by the row loop is
duplicate-free, and every option list of a category produced by the
header loop is duplicate-free. -/
theorem attributes_and_options_nodup :
    (∀ (headers values : List String) (m : CsvMethod) (p : String × List String),
      processRow headers values = some m → p ∈ m.attributes → p.2.Nodup) ∧
    (∀ (headers : List String) (c : Category),
      c ∈ buildCategories headers → c.options.Nodup) := by
  constructor
  · intro headers values m p hrow hp
    simp only [processRow] at hrow
    split at hrow
    · exact absurd hrow (by simp)
    · have hm := Option.some.inj hrow
      rw [← hm, finalizeMethod_attributes] at hp
      exact (foldl_processCell_wf _ _ ⟨by simp [initMethod], by simp [initMethod]⟩).2 p hp
  · intro headers c hc
    have hwf : catsWF (buildCategories headers) := by
      unfold buildCategories
      exact foldl_addHeader_wf _ _ ⟨by simp, by simp⟩
    exact hwf.2 c hc

/-- C10 witness: a concrete row with a repeated truthy cell for the same
category option yields a duplicate-free attribute array, and a concrete
header row with a repeated option yields duplicate-free options. -/
theorem attributes_and_options_nodup_witness :
    (("sem_level", ["Individual"]) : String × List String).2.Nodup :=
  attributes_and_options_nodup.1
    ["Method", "SEM Level - Individual", "SEM Level - Individual"]
    ["Administrative Data", "x", "x"]
    { name := "Administrative Data",
      description := "Administrative Data methodology for adolescent girl empowerment research",
      attributes := [("sem_level", ["Individual"])],
      link := none, link2 := none, costTier := none, connectivity := none,
      type := none }
    ("sem_level", ["Individual"]) (by decide) (by decide)

example : isSemanticMismatch adminData selIndividual = true := by decide
example : isSemanticMismatch oneOnOne selIndividual = false := by decide
example : rule1 adminData selSemEmpty = true := by decide
example : phase2Skip adminData selSemEmpty = false := by decide
example : rule2 participatoryVideo selLowOnly = true := by decide
example : rule2 participatoryVideo selLowMedium = false := by decide
example : rule3 photoVoice selHighCultural = true := by decide
example : classifyMethod photoVoice selHighCultural = none := by decide
example : (groupMethodsByFit [photoVoice] selHighCultural).excluded = [] := by decide
example : deriveId "SEM Level" = "sem_level" := by decide
example : deriveId "Participants Access to Technology (e.g. phones, internet)" =
    "participants_access_to_technology_eg_phones_internet" := by decide
example : parseHeader "SEM Level - Individual" = some ("SEM Level", "Individual") := by
  decide
example : parseHeader "NoSeparatorHere" = none := by decide
example : parseHeader "A - B - C" = some ("A", "B - C") := by decide
example : normalizeLink "www.example.com" = some "https://www.example.com" := by decide
example : normalizeLink "http://x.org" = some "http://x.org" := by decide
example : normalizeLink "example.org" = some "https://example.org" := by decide
example : normalizeLink "null" = none := by decide
example : normalizeLink "not a url" = none := by decide
example : buildCategories ["Method", "SEM Level - Individual", "SEM Level - Community",
    "Link", "SEM Level - Individual"] =
    [{ id := "sem_level", name := "SEM Level", options := ["Individual", "Community"] }] := by
  decide
example : processRow ["Method", "SEM Level - Individual", "SEM Level - Community", "Link"]
    ["Administrative Data", "x", "", "www.data.org"] =
    some { name := "Administrative Data",
           description := "Administrative Data methodology for adolescent girl empowerment research",
           attributes := [("sem_level", ["Individual"])],
           link := some "https://www.data.org", link2 := none, costTier := none,
           connectivity := none, type := none } := by decide
